import Mathlib

/-!
Shallow embedding of the bytti stack-based virtual machine (src/main.rs):
the instruction set `Op`, the VM state (operand stack, memory, jump table),
the dispatch loop of `VM::excecute`, and the tokenizer/compiler
`Lexer::codegen`.  Machine integers (Rust `i64`/`usize`) are modelled as
`Int`/`Nat` with explicit two's-complement wrapping where the Rust
semantics wraps, and explicit fatal outcomes where Rust panics.
-/

namespace Bytti

/-- The instruction set, mirroring `enum Op` in src/main.rs. -/
inductive Op where
  | Add
  | Sub
  | Mul
  | Div
  | Lit (x : Int)
  | Load
  | Store
  | Label (l : Nat)
  | Jmp
  | CJmp
  | Put
  | Dup
  | Swap
  | Eq
  | Lt
  | Gt
deriving DecidableEq, Repr

/-- The VM state, mirroring `struct VM`: operand stack (head = top),
memory store, and jump table. -/
structure VM where
  stack : List Int
  memory : List Int
  jump_table : List Nat
deriving DecidableEq, Repr

/-- A freshly constructed VM (`VM::new`): everything empty. -/
def VM.new : VM := ⟨[], [], []⟩

/-- Two's-complement wrap into the `i64` range `[-2^63, 2^63)`, used for
Rust's release-mode wrapping arithmetic on `i64`. -/
def wrap64 (n : Int) : Int := (n + 2 ^ 63) % 2 ^ 64 - 2 ^ 63

/-- The `i64` value range. -/
def inI64 (n : Int) : Prop := -(2 ^ 63) ≤ n ∧ n < 2 ^ 63

instance (n : Int) : Decidable (inI64 n) := by unfold inI64; infer_instance

/-- Rust's `as usize` cast of an `i64`: reduce modulo `2^64` to the
unsigned interpretation. -/
def toUsize (v : Int) : Nat := (v % 2 ^ 64).toNat

/-- Rust's `i64` division `a / b`: truncates toward zero. -/
def i64Div (a b : Int) : Int := Int.tdiv a b

/-- Pop from the operand stack without the `?` operator, as the Eq/Lt/Gt
arms do: returns the optional popped value and the remaining stack. -/
def popOpt : List Int → Option Int × List Int
  | [] => (none, [])
  | x :: xs => (some x, xs)

/-- Rust's derived `Ord` on `Option<i64>`: `None` is below every
`Some`, and two `Some`s compare by value.  This is the `<` used by the
Lt and Gt arms on already-popped optional values. -/
def optLt : Option Int → Option Int → Bool
  | none, none => false
  | none, some _ => true
  | some _, none => false
  | some x, some y => decide (x < y)

/-- Result of dispatching a single instruction of the loop body:
continue at pointer `next` (with an optional emitted output value),
halt the whole `excecute` call with result `None` (a `?` pop on an
empty stack), or abort fatally (a Rust panic). -/
inductive StepRes where
  | cont (vm : VM) (emit : Option Int) (next : Nat)
  | haltNone (vm : VM)
  | fatal
deriving DecidableEq, Repr

/-- One iteration of the dispatch loop body of `VM::excecute` at
instruction `op` and instruction pointer `i`.  The unconditional
`i += 1` at the end of the Rust loop body is folded into the returned
pointer: a taken jump yields `jump_table[label] + 1`, every other
instruction yields `i + 1`. -/
def execOp (op : Op) (vm : VM) (i : Nat) : StepRes :=
  match op with
  | .Add =>
    match vm.stack with
    | a :: b :: rest => .cont ⟨wrap64 (a + b) :: rest, vm.memory, vm.jump_table⟩ none (i + 1)
    | _ => .haltNone ⟨[], vm.memory, vm.jump_table⟩
  | .Sub =>
    match vm.stack with
    | a :: b :: rest => .cont ⟨wrap64 (a - b) :: rest, vm.memory, vm.jump_table⟩ none (i + 1)
    | _ => .haltNone ⟨[], vm.memory, vm.jump_table⟩
  | .Mul =>
    match vm.stack with
    | a :: b :: rest => .cont ⟨wrap64 (a * b) :: rest, vm.memory, vm.jump_table⟩ none (i + 1)
    | _ => .haltNone ⟨[], vm.memory, vm.jump_table⟩
  | .Div =>
    match vm.stack with
    | a :: b :: rest =>
      if b = 0 then .fatal
      else if a = -(2 ^ 63) ∧ b = -1 then .fatal
      else .cont ⟨i64Div a b :: rest, vm.memory, vm.jump_table⟩ none (i + 1)
    | _ => .haltNone ⟨[], vm.memory, vm.jump_table⟩
  | .Lit x => .cont ⟨x :: vm.stack, vm.memory, vm.jump_table⟩ none (i + 1)
  | .Load =>
    match vm.stack with
    | p :: rest =>
      match vm.memory[toUsize p]? with
      | some a => .cont ⟨a :: rest, vm.memory, vm.jump_table⟩ none (i + 1)
      | none => .fatal
    | [] => .haltNone ⟨[], vm.memory, vm.jump_table⟩
  | .Store =>
    match vm.stack with
    | p :: a :: rest =>
      if toUsize p < vm.memory.length then
        .cont ⟨rest, vm.memory.set (toUsize p) a, vm.jump_table⟩ none (i + 1)
      else if toUsize p = vm.memory.length then
        .cont ⟨rest, vm.memory ++ [a], vm.jump_table⟩ none (i + 1)
      else .fatal
    | _ => .haltNone ⟨[], vm.memory, vm.jump_table⟩
  | .Label _ => .cont vm none (i + 1)
  | .Jmp =>
    match vm.stack with
    | p :: rest =>
      match vm.jump_table[toUsize p]? with
      | some t => .cont ⟨rest, vm.memory, vm.jump_table⟩ none (t + 1)
      | none => .fatal
    | [] => .haltNone ⟨[], vm.memory, vm.jump_table⟩
  | .CJmp =>
    match vm.stack with
    | p :: a :: rest =>
      if a ≠ 0 then
        match vm.jump_table[toUsize p]? with
        | some t => .cont ⟨rest, vm.memory, vm.jump_table⟩ none (t + 1)
        | none => .fatal
      else .cont ⟨rest, vm.memory, vm.jump_table⟩ none (i + 1)
    | _ => .haltNone ⟨[], vm.memory, vm.jump_table⟩
  | .Put =>
    match vm.stack with
    | a :: rest => .cont ⟨rest, vm.memory, vm.jump_table⟩ (some a) (i + 1)
    | [] => .haltNone ⟨[], vm.memory, vm.jump_table⟩
  | .Dup =>
    match vm.stack with
    | a :: rest => .cont ⟨a :: a :: rest, vm.memory, vm.jump_table⟩ none (i + 1)
    | [] => .haltNone ⟨[], vm.memory, vm.jump_table⟩
  | .Swap =>
    match vm.stack with
    | a :: b :: rest => .cont ⟨b :: a :: rest, vm.memory, vm.jump_table⟩ none (i + 1)
    | _ => .haltNone ⟨[], vm.memory, vm.jump_table⟩
  | .Eq =>
    let pa := popOpt vm.stack
    let pb := popOpt pa.2
    .cont ⟨(if pa.1 = pb.1 then 1 else 0) :: pb.2, vm.memory, vm.jump_table⟩ none (i + 1)
  | .Lt =>
    let pa := popOpt vm.stack
    let pb := popOpt pa.2
    .cont ⟨(if optLt pa.1 pb.1 then 1 else 0) :: pb.2, vm.memory, vm.jump_table⟩ none (i + 1)
  | .Gt =>
    let pa := popOpt vm.stack
    let pb := popOpt pa.2
    .cont ⟨(if optLt pa.1 pb.1 then 1 else 0) :: pb.2, vm.memory, vm.jump_table⟩ none (i + 1)

/-- Overall outcome of one `excecute` call: a normal return carrying the
`Option<i64>` result, the engine state left behind, and the values
emitted by `Put` in order; a fatal panic (with the output emitted before
the panic); or fuel exhaustion (an artifact of the embedding, never a
behavior of the code). -/
inductive Outcome where
  | ok (res : Option Int) (vm : VM) (out : List Int)
  | fatal (out : List Int)
  | timeout
deriving DecidableEq, Repr

/-- Pass 1 of `VM::excecute`: populate the jump table by scanning the
program.  A label equal to the current table size appends the current
instruction index, a smaller label overwrites in place, a larger label
trips the `assert!` (fatal, modelled as `none`). -/
def buildJT : List Op → Nat → List Nat → Option (List Nat)
  | [], _, jt => some jt
  | .Label l :: rest, i, jt =>
    if l < jt.length then buildJT rest (i + 1) (jt.set l i)
    else if l = jt.length then buildJT rest (i + 1) (jt ++ [i])
    else none
  | _ :: rest, i, jt => buildJT rest (i + 1) jt

/-- Pass 2 of `VM::excecute`: the fuel-indexed dispatch loop.  When the
instruction pointer runs off the end of the program, the loop breaks and
the function returns `self.stack.pop()`: the head of the stack (or
`none`), with that head removed from the engine's persistent stack. -/
def loop : Nat → List Op → VM → List Int → Nat → Outcome
  | 0, _, _, _, _ => .timeout
  | fuel + 1, prog, vm, out, i =>
    match prog[i]? with
    | none => .ok vm.stack.head? ⟨vm.stack.tail, vm.memory, vm.jump_table⟩ out
    | some op =>
      match execOp op vm i with
      | .cont vm1 e next => loop fuel prog vm1 (out ++ e.toList) next
      | .haltNone vm1 => .ok none vm1 out
      | .fatal => .fatal out

/-- `VM::excecute`: build the jump table (extending the engine's existing
one), then run the dispatch loop from pointer 0. -/
def excecute (fuel : Nat) (vm : VM) (prog : List Op) : Outcome :=
  match buildJT prog 0 vm.jump_table with
  | none => .fatal []
  | some jt => loop fuel prog ⟨vm.stack, vm.memory, jt⟩ [] 0

/-- The dispatch loop followed only to its normal exit (pointer past the
end of the program), returning the engine state and output at the moment
the loop breaks, before the final `self.stack.pop()`.  Used to relate
`excecute`'s returned value and left-behind state to the loop-exit
state (`none` on halt, panic, or fuel exhaustion). -/
def loopFinalState : Nat → List Op → VM → List Int → Nat → Option (VM × List Int)
  | 0, _, _, _, _ => none
  | fuel + 1, prog, vm, out, i =>
    match prog[i]? with
    | none => some (vm, out)
    | some op =>
      match execOp op vm i with
      | .cont vm1 e next => loopFinalState fuel prog vm1 (out ++ e.toList) next
      | .haltNone _ => none
      | .fatal => none

/-- Decimal digit run parser: `some` of the value when the character
list is a nonempty run of ASCII digits, `none` otherwise. -/
def digitsVal (cs : List Char) : Option Nat :=
  if cs.isEmpty then none
  else
    cs.foldl
      (fun acc c =>
        acc.bind fun n => if c.isDigit then some (n * 10 + (c.toNat - 48)) else none)
      (some 0)

/-- Rust `str::parse::<i64>()`: an optional sign followed by a nonempty
digit run, rejected when the value falls outside the `i64` range. -/
def parseI64 (s : String) : Option Int :=
  match s.data with
  | '+' :: rest => (digitsVal rest).bind fun n => if n ≤ 2 ^ 63 - 1 then some (n : Int) else none
  | '-' :: rest => (digitsVal rest).bind fun n => if n ≤ 2 ^ 63 then some (-(n : Int)) else none
  | cs => (digitsVal cs).bind fun n => if n ≤ 2 ^ 63 - 1 then some (n : Int) else none

/-- Rust `str::parse::<usize>()`: an optional leading `+` followed by a
nonempty digit run, rejected above `2^64 - 1`. -/
def parseUsize (s : String) : Option Nat :=
  match s.data with
  | '+' :: rest => (digitsVal rest).bind fun n => if n ≤ 2 ^ 64 - 1 then some n else none
  | cs => (digitsVal cs).bind fun n => if n ≤ 2 ^ 64 - 1 then some n else none

/-- Helper for `splitWs`: walk the characters, accumulating the current
token reversed; whitespace closes the token, empty tokens are dropped. -/
def splitWsAux : List Char → List Char → List String
  | [], acc => if acc.isEmpty then [] else [String.mk acc.reverse]
  | c :: cs, acc =>
    if c.isWhitespace then
      if acc.isEmpty then splitWsAux cs [] else String.mk acc.reverse :: splitWsAux cs []
    else splitWsAux cs (c :: acc)

/-- Rust `str::split_whitespace`: the whitespace-separated tokens of the
source, with empty tokens dropped. -/
def splitWs (s : String) : List String := splitWsAux s.data []

/-- The per-token arm of `Lexer::codegen`: the fixed opcode table, then
integer literals, then `NN:` label definitions; anything else is a fatal
compile-time failure (`none`), as are labels whose prefix before the
trailing colon is not a `usize` numeral. -/
def tokenToOp (x : String) : Option Op :=
  match x with
  | "+" => some .Add
  | "-" => some .Sub
  | "*" => some .Mul
  | "/" => some .Div
  | "load" => some .Load
  | "store" => some .Store
  | "jmp" => some .Jmp
  | "cjmp" => some .CJmp
  | "." => some .Put
  | "dup" => some .Dup
  | "swap" => some .Swap
  | "=" => some .Eq
  | "<" => some .Lt
  | ">" => some .Gt
  | lit =>
    match parseI64 lit with
    | some v => some (.Lit v)
    | none =>
      match lit.data.getLast? with
      | some ':' => (parseUsize (String.mk lit.data.dropLast)).map .Label
      | _ => none

/-- `Lexer::codegen`: tokenize on whitespace and map every token through
the fixed table, left to right; any malformed token aborts compilation. -/
def codegen (program : String) : Option (List Op) :=
  (splitWs program).mapM tokenToOp

/-- The `main` pipeline on a source string: compile, then run the result
on a fresh VM; `none` when compilation fails fatally. -/
def compileAndRun (fuel : Nat) (src : String) : Option Outcome :=
  (codegen src).map fun prog => excecute fuel VM.new prog

end Bytti

namespace Bytti

/-- Unfolding law for `loop` when the instruction pointer is past the end
of the program: the loop breaks and returns the popped stack top. -/
theorem loop_break (fuel : Nat) (prog : List Op) (vm : VM) (out : List Int) (i : Nat)
    (h : prog[i]? = none) :
    loop (fuel + 1) prog vm out i =
      .ok vm.stack.head? ⟨vm.stack.tail, vm.memory, vm.jump_table⟩ out := by
  rw [loop, h]

/-- Unfolding law for `loop` at an in-range instruction pointer: dispatch
the instruction and continue, halt, or abort as `execOp` directs. -/
theorem loop_step (fuel : Nat) (prog : List Op) (vm : VM) (out : List Int) (i : Nat) (op : Op)
    (h : prog[i]? = some op) :
    loop (fuel + 1) prog vm out i =
      match execOp op vm i with
      | .cont vm1 e next => loop fuel prog vm1 (out ++ e.toList) next
      | .haltNone vm1 => .ok none vm1 out
      | .fatal => .fatal out := by
  rw [loop, h]

/-- Unfolding law for `loopFinalState` at normal loop exit. -/
theorem loopFinalState_break (fuel : Nat) (prog : List Op) (vm : VM) (out : List Int) (i : Nat)
    (h : prog[i]? = none) :
    loopFinalState (fuel + 1) prog vm out i = some (vm, out) := by
  rw [loopFinalState, h]

/-- Unfolding law for `loopFinalState` at an in-range instruction pointer. -/
theorem loopFinalState_step (fuel : Nat) (prog : List Op) (vm : VM) (out : List Int) (i : Nat)
    (op : Op) (h : prog[i]? = some op) :
    loopFinalState (fuel + 1) prog vm out i =
      match execOp op vm i with
      | .cont vm1 e next => loopFinalState fuel prog vm1 (out ++ e.toList) next
      | .haltNone _ => none
      | .fatal => none := by
  rw [loopFinalState, h]

/-- Claim C1, counterexample.  The claim says every popping instruction,
Eq included, ends execution with no final value when it pops an empty
stack.  But executing the one-instruction program `[Eq]` on a fresh VM
returns the final value `some 1`: Eq popped the empty stack twice, pushed
1, and execution continued to a normal return, not an absent result. -/
theorem claim_C1_counterexample :
    excecute 2 VM.new [Op.Eq] = .ok (some 1) ⟨[], [], []⟩ [] ∧
    (some (1 : Int)) ≠ (none : Option Int) := by decide

/-- Claim C1, amended.  A pop on an empty stack ends execution
immediately with no final value in every popping instruction EXCEPT Eq,
Lt and Gt: (1) each of the eleven question-mark-popping instructions
dispatched on an empty stack halts with `haltNone`; (2) a `haltNone`
step makes the dispatch loop return `none` at once; (3) Eq, Lt and Gt on
an empty stack instead push 1, 0 and 0 respectively and continue at the
next instruction. -/
theorem claim_C1_empty_pop :
    (∀ op : Op,
        op ∈ [Op.Add, Op.Sub, Op.Mul, Op.Div, Op.Load, Op.Store, Op.Jmp, Op.CJmp,
              Op.Put, Op.Dup, Op.Swap] →
        ∀ (m : List Int) (jt : List Nat) (i : Nat),
          execOp op ⟨[], m, jt⟩ i = .haltNone ⟨[], m, jt⟩) ∧
    (∀ (fuel : Nat) (prog : List Op) (vm vm1 : VM) (out : List Int) (i : Nat) (op : Op),
        prog[i]? = some op → execOp op vm i = .haltNone vm1 →
        loop (fuel + 1) prog vm out i = .ok none vm1 out) ∧
    (∀ (m : List Int) (jt : List Nat) (i : Nat),
        execOp Op.Eq ⟨[], m, jt⟩ i = .cont ⟨[1], m, jt⟩ none (i + 1) ∧
        execOp Op.Lt ⟨[], m, jt⟩ i = .cont ⟨[0], m, jt⟩ none (i + 1) ∧
        execOp Op.Gt ⟨[], m, jt⟩ i = .cont ⟨[0], m, jt⟩ none (i + 1)) := by
  refine ⟨?_, ?_, ?_⟩
  · intro op hop m jt i
    fin_cases hop <;> rfl
  · intro fuel prog vm vm1 out i op h1 h2
    simp [loop, h1, h2]
  · intro m jt i
    exact ⟨rfl, rfl, rfl⟩

/-- Claim C1, witness: Add dispatched on an empty stack halts with no
result. -/
theorem claim_C1_witness :
    execOp Op.Add ⟨[], [], []⟩ 0 = .haltNone ⟨[], [], []⟩ :=
  claim_C1_empty_pop.1 Op.Add (by simp) [] [] 0

/-- Claim C2, counterexample.  The claim says a taken Jmp leaves the
instruction pointer at `jump_table[target]` with no advance-by-one.  But
dispatching Jmp with target label 0 and `jump_table = [3]` continues at
pointer 4, not 3: the loop's unconditional `i += 1` also runs after a
taken jump. -/
theorem claim_C2_counterexample :
    execOp Op.Jmp ⟨[0], [], [3]⟩ 0 = .cont ⟨[], [], [3]⟩ none 4 ∧
    execOp Op.Jmp ⟨[0], [], [3]⟩ 0 ≠ .cont ⟨[], [], [3]⟩ none 3 := by decide

/-- Claim C2, amended.  A taken Jmp (or CJmp with non-zero condition)
sets the pointer to `jump_table[target]` and then, like every
instruction, advances it by one, so execution resumes at
`jump_table[target] + 1` — the instruction after the targeted Label
(harmless, since Label is a no-op); a CJmp with zero condition and a
non-jump instruction resume at `i + 1`. -/
theorem claim_C2_jump_pointer :
    ∀ (p : Int) (rest m : List Int) (jt : List Nat) (i t : Nat),
      (jt[toUsize p]? = some t →
        execOp Op.Jmp ⟨p :: rest, m, jt⟩ i = .cont ⟨rest, m, jt⟩ none (t + 1)) ∧
      (∀ c : Int, c ≠ 0 → jt[toUsize p]? = some t →
        execOp Op.CJmp ⟨p :: c :: rest, m, jt⟩ i = .cont ⟨rest, m, jt⟩ none (t + 1)) ∧
      (execOp Op.CJmp ⟨p :: 0 :: rest, m, jt⟩ i = .cont ⟨rest, m, jt⟩ none (i + 1)) ∧
      (∀ x : Int, execOp (Op.Lit x) ⟨p :: rest, m, jt⟩ i =
        .cont ⟨x :: p :: rest, m, jt⟩ none (i + 1)) := by
  intro p rest m jt i t
  refine ⟨?_, ?_, ?_, ?_⟩
  · intro h; simp [execOp, h]
  · intro c hc h; simp [execOp, h, hc]
  · simp [execOp]
  · intro x; rfl

/-- Claim C2, witness: a Jmp to label 0 with `jump_table = [3]` resumes
at pointer `3 + 1`. -/
theorem claim_C2_witness :
    execOp Op.Jmp ⟨[(0 : Int)], [], [3]⟩ 0 = .cont ⟨[], [], [3]⟩ none (3 + 1) :=
  (claim_C2_jump_pointer 0 [] [] [3] 0 3).1 (by decide)

/-- Claim C3, counterexample.  The claim says Swap nets a no-op.  But on
the stack with top 2 above 1, Swap produces top 1 above 2 — the stack is
changed. -/
theorem claim_C3_counterexample :
    execOp Op.Swap ⟨[2, 1], [], []⟩ 0 = .cont ⟨[1, 2], [], []⟩ none 1 ∧
    execOp Op.Swap ⟨[2, 1], [], []⟩ 0 ≠ .cont ⟨[2, 1], [], []⟩ none 1 := by decide

/-- Claim C3, amended.  Swap exchanges the top two stack values: the
pop-a, pop-b, push-a, push-b sequence turns stack `a :: b :: rest` into
`b :: a :: rest` (a no-op only when the two values are equal). -/
theorem claim_C3_swap_exchanges :
    ∀ (a b : Int) (rest m : List Int) (jt : List Nat) (i : Nat),
      execOp Op.Swap ⟨a :: b :: rest, m, jt⟩ i = .cont ⟨b :: a :: rest, m, jt⟩ none (i + 1) :=
  fun _ _ _ _ _ _ => rfl

/-- Claim C4, confirmed.  The Gt arm is the very same computation as the
Lt arm (both compare `a < b` on the popped optional values): dispatching
Gt from any VM state yields exactly the same step result — stack, memory,
jump table, output and pointer — as dispatching Lt. -/
theorem claim_C4_gt_equals_lt :
    ∀ (vm : VM) (i : Nat), execOp Op.Gt vm i = execOp Op.Lt vm i :=
  fun _ _ => rfl

/-- Claim C5, counterexample.  The claim says compiling and executing
the given countdown source emits the lines 10 down to 1.  But
compilation of that exact string fails fatally: `label0:` strips to the
prefix `label0`, which does not parse as an unsigned integer label id
(and the trailing token `exit` is likewise malformed), so codegen aborts,
nothing executes and nothing is emitted. -/
theorem claim_C5_counterexample :
    codegen "10 0 store label0: 0 load . 1 0 load - 0 store 0 load cjmp 0 exit" = none ∧
    compileAndRun 1000 "10 0 store label0: 0 load . 1 0 load - 0 store 0 load cjmp 0 exit" =
      none := by decide

/-- Claim C5, amended.  Running the pipeline on that exact source string
fails at compile time for every fuel budget: the malformed token
`label0:` aborts codegen, so no instruction sequence is produced, no
execution happens and no output lines are emitted. -/
theorem claim_C5_compile_fatal :
    ∀ fuel : Nat,
      compileAndRun fuel "10 0 store label0: 0 load . 1 0 load - 0 store 0 load cjmp 0 exit" =
        none := by
  intro fuel
  have h : codegen "10 0 store label0: 0 load . 1 0 load - 0 store 0 load cjmp 0 exit" = none := by
    decide
  simp [compileAndRun, h]

/-- Claim C6, counterexample.  The claim says `Lit a, Lit b, Add` yields
`a + b` for ALL pairs of 64-bit integers.  But for `a = b = 2^62` the
i64 addition wraps: the program returns `-(2^63)`, not
`2^62 + 2^62 = 2^63` (which is not even an i64 value). -/
theorem claim_C6_counterexample :
    excecute 4 VM.new [Op.Lit (2 ^ 62), Op.Lit (2 ^ 62), Op.Add] =
      .ok (some (-(2 ^ 63))) ⟨[], [], []⟩ [] ∧
    (-(2 ^ 63) : Int) ≠ 2 ^ 62 + 2 ^ 62 := by decide

/-- Claim C6, amended.  For all i64 values `a` and `b`, executing
`Lit a, Lit b, Add` returns the two's-complement-wrapped sum
`wrap64 (a + b)` as the final value, and that wrapped sum equals the
mathematical `a + b` exactly when `a + b` itself lies in the i64
range. -/
theorem claim_C6_add_program :
    ∀ a b : Int, inI64 a → inI64 b →
      excecute 4 VM.new [Op.Lit a, Op.Lit b, Op.Add] =
        .ok (some (wrap64 (a + b))) ⟨[], [], []⟩ [] ∧
      (inI64 (a + b) → wrap64 (a + b) = a + b) := by
  intro a b _ _
  constructor
  · have h : excecute 4 VM.new [Op.Lit a, Op.Lit b, Op.Add] =
        .ok (some (wrap64 (b + a))) ⟨[], [], []⟩ [] := rfl
    rw [Int.add_comm b a] at h
    exact h
  · intro hab
    unfold inI64 at hab
    unfold wrap64
    omega

/-- Claim C6, witness: `Lit 2, Lit 3, Add` returns 5. -/
theorem claim_C6_witness :
    excecute 4 VM.new [Op.Lit 2, Op.Lit 3, Op.Add] = .ok (some 5) ⟨[], [], []⟩ [] := by
  have h := (claim_C6_add_program 2 3 (by decide) (by decide)).1
  have h6 : wrap64 (2 + 3) = 5 := by decide
  rw [h6] at h
  exact h

/-- Claim C7, confirmed.  A Store popping address `addr` (any value
representable as a `usize`) and then value `v` against memory of length
`len`: when `addr = len` it appends a new cell holding `v`; when
`addr < len` it overwrites the cell at `addr` in place, leaving the
length unchanged; when `addr > len` it fails fatally. -/
theorem claim_C7_store :
    ∀ (addr : Nat) (v : Int) (rest m : List Int) (jt : List Nat) (i : Nat),
      addr < 2 ^ 64 →
      (addr = m.length →
        execOp Op.Store ⟨(addr : Int) :: v :: rest, m, jt⟩ i =
          .cont ⟨rest, m ++ [v], jt⟩ none (i + 1)) ∧
      (addr < m.length →
        execOp Op.Store ⟨(addr : Int) :: v :: rest, m, jt⟩ i =
          .cont ⟨rest, m.set addr v, jt⟩ none (i + 1) ∧
        (m.set addr v).length = m.length) ∧
      (addr > m.length → execOp Op.Store ⟨(addr : Int) :: v :: rest, m, jt⟩ i = .fatal) := by
  intro addr v rest m jt i h64
  have ht : toUsize (addr : Int) = addr := by
    unfold toUsize
    omega
  refine ⟨?_, ?_, ?_⟩
  · intro hlen
    subst hlen
    simp [execOp, ht]
  · intro hlen
    exact ⟨by simp [execOp, ht, hlen], by simp⟩
  · intro hlen
    simp only [execOp, ht]
    rw [if_neg (by omega), if_neg (by omega)]

/-- Claim C7, witness: a Store of value 7 at address 0 against empty
memory appends, producing memory `[7]`. -/
theorem claim_C7_witness :
    execOp Op.Store ⟨[(0 : Int), 7], [], []⟩ 0 = .cont ⟨[], [7], []⟩ none 1 := by
  have h := (claim_C7_store 0 7 [] [] [] 0 (by norm_num)).1 rfl
  simpa using h

/-- Claim C8, confirmed.  During jump-table construction, a
`Label l` at instruction index `i` with `l` below the current table
size overwrites entry `l` with `i`; with `l` equal to the size it
appends a new entry; with `l` above the size it is fatal — in
particular any program whose first processed label is `Label 2` against
an empty table aborts the run before dispatch. -/
theorem claim_C8_jump_table :
    ∀ (jt : List Nat) (l i : Nat) (rest : List Op),
      (l < jt.length →
        buildJT (Op.Label l :: rest) i jt = buildJT rest (i + 1) (jt.set l i)) ∧
      (l = jt.length →
        buildJT (Op.Label l :: rest) i jt = buildJT rest (i + 1) (jt ++ [i])) ∧
      (l > jt.length → buildJT (Op.Label l :: rest) i jt = none) ∧
      buildJT (Op.Label 2 :: rest) 0 [] = none := by
  intro jt l i rest
  refine ⟨?_, ?_, ?_, rfl⟩
  · intro h
    simp [buildJT, h]
  · intro h
    subst h
    simp [buildJT]
  · intro h
    simp only [buildJT]
    rw [if_neg (by omega), if_neg (by omega)]

/-- Claim C8, witness: `Label 0` against an empty table appends entry 0,
while `Label 2` against an empty table is fatal. -/
theorem claim_C8_witness :
    buildJT [Op.Label 0] 0 [] = buildJT [] 1 ([] ++ [0]) ∧
    buildJT [Op.Label 2] 0 [] = none :=
  ⟨(claim_C8_jump_table [] 0 0 []).2.1 rfl, (claim_C8_jump_table [] 2 0 []).2.2.2⟩

/-- Claim C9, confirmed.  Eq, Lt and Gt dispatched with fewer than two
stack values do not end execution: they push exactly one value and
continue at the next instruction; Eq on an empty stack pushes 1 (both
optional pops are `None`, which are equal), Eq with exactly one value
pushes 0, and Lt and Gt with zero or one value push 0. -/
theorem claim_C9_cmp_underflow :
    ∀ (m : List Int) (jt : List Nat) (i : Nat) (v : Int),
      execOp Op.Eq ⟨[], m, jt⟩ i = .cont ⟨[1], m, jt⟩ none (i + 1) ∧
      execOp Op.Eq ⟨[v], m, jt⟩ i = .cont ⟨[0], m, jt⟩ none (i + 1) ∧
      execOp Op.Lt ⟨[], m, jt⟩ i = .cont ⟨[0], m, jt⟩ none (i + 1) ∧
      execOp Op.Lt ⟨[v], m, jt⟩ i = .cont ⟨[0], m, jt⟩ none (i + 1) ∧
      execOp Op.Gt ⟨[], m, jt⟩ i = .cont ⟨[0], m, jt⟩ none (i + 1) ∧
      execOp Op.Gt ⟨[v], m, jt⟩ i = .cont ⟨[0], m, jt⟩ none (i + 1) := by
  intro m jt i v
  exact ⟨rfl, rfl, rfl, rfl, rfl, rfl⟩

/-- Claim C10, confirmed.  When the dispatch loop reaches its normal
exit (pointer past the end of the program) in state `st` with output
`outF`, the call returns `st`'s stack top as the result and leaves the
engine with that top removed (`st.stack.tail`) while memory and jump
table stay exactly as the loop produced them — so a later call on the
same engine starts from the stack with the final value popped off.
Stated both for the dispatch loop and for a full `excecute` call. -/
theorem claim_C10_final_pop :
    (∀ (fuel : Nat) (prog : List Op) (vm : VM) (out outF : List Int) (i : Nat) (st : VM),
      loopFinalState fuel prog vm out i = some (st, outF) →
      loop fuel prog vm out i =
        .ok st.stack.head? ⟨st.stack.tail, st.memory, st.jump_table⟩ outF) ∧
    (∀ (fuel : Nat) (prog : List Op) (vm st : VM) (outF : List Int) (jt0 : List Nat),
      buildJT prog 0 vm.jump_table = some jt0 →
      loopFinalState fuel prog ⟨vm.stack, vm.memory, jt0⟩ [] 0 = some (st, outF) →
      excecute fuel vm prog =
        .ok st.stack.head? ⟨st.stack.tail, st.memory, st.jump_table⟩ outF) := by
  have main : ∀ (fuel : Nat) (prog : List Op) (vm : VM) (out outF : List Int) (i : Nat) (st : VM),
      loopFinalState fuel prog vm out i = some (st, outF) →
      loop fuel prog vm out i =
        .ok st.stack.head? ⟨st.stack.tail, st.memory, st.jump_table⟩ outF := by
    intro fuel
    induction fuel with
    | zero =>
      intro prog vm out outF i st h
      simp [loopFinalState] at h
    | succ n ih =>
      intro prog vm out outF i st h
      cases hpi : prog[i]? with
      | none =>
        rw [loopFinalState_break n prog vm out i hpi] at h
        rw [loop_break n prog vm out i hpi]
        injection h with h1
        injection h1 with h2 h3
        subst h2
        subst h3
        rfl
      | some op =>
        rw [loopFinalState_step n prog vm out i op hpi] at h
        rw [loop_step n prog vm out i op hpi]
        cases hex : execOp op vm i with
        | cont vm1 e next =>
          rw [hex] at h
          exact ih prog vm1 (out ++ e.toList) outF next st h
        | haltNone vm1 =>
          rw [hex] at h
          exact Option.noConfusion h
        | fatal =>
          rw [hex] at h
          exact Option.noConfusion h
  refine ⟨main, ?_⟩
  intro fuel prog vm st outF jt0 hb h
  unfold excecute
  rw [hb]
  exact main fuel prog ⟨vm.stack, vm.memory, jt0⟩ [] outF 0 st h

/-- Claim C10, witness: the loop over `Lit 7, Lit 3` ends in stack
`[3, 7]`; the call returns `some 3` and leaves the engine stack `[7]`. -/
theorem claim_C10_witness :
    loop 3 [Op.Lit 7, Op.Lit 3] VM.new [] 0 = .ok (some 3) ⟨[7], [], []⟩ [] := by
  have h := claim_C10_final_pop.1 3 [Op.Lit 7, Op.Lit 3] VM.new [] [] 0 ⟨[3, 7], [], []⟩
    (by decide)
  simpa using h

end Bytti
